import Mathlib

/-!
Shallow embedding of the ACF schema-resolution pipeline of this
repository: src/acf/index.py, src/acf/clone_resolver.py,
src/acf/field_path_builder.py, src/acf/parser.py, src/acf/defaults.py and
src/acf/transformer.py.

Python dicts are modelled as ordered association lists with CPython dict
semantics: lookup returns the first matching entry, assignment replaces
the value in place (keeping the entry's position) or appends a new entry,
and iteration follows the list order.  Python sets of strings
(the clone resolver's `visited` frozenset) are modelled as lists used
through membership only; the one place the code iterates such a set (the
circular-reference message) is modelled with insertion order, CPython's
iteration order over a string set being unspecified.

Recursion that Python bounds only by the process stack is given an
explicit fuel parameter; running out of fuel is a distinguished error
that the termination theorems rule out for sufficiently large fuel.
-/

namespace ACF

/-- dictGet models Python `d[k]` / `d.get(k)` on an ordered association
list: the first matching entry wins. -/
def dictGet {β : Type} : List (String × β) → String → Option β
  | [], _ => none
  | (k', v) :: rest, k => if k' = k then some v else dictGet rest k

/-- dictSet models Python `d[k] = v`: replace the value in place if the
key is present (keeping its position), else append a new entry. -/
def dictSet {β : Type} : List (String × β) → String → β → List (String × β)
  | [], k, v => [(k, v)]
  | (k', v') :: rest, k, v =>
    if k' = k then (k, v) :: rest else (k', v') :: dictSet rest k v

/-- dictUpdate models Python `d.update(d2)`: assign every entry of `d2`
into `d` in order. -/
def dictUpdate {β : Type} (d : List (String × β)) : List (String × β) → List (String × β)
  | [] => d
  | (k, v) :: rest => dictUpdate (dictSet d k v) rest

/-- Field models an ACF field dict.  Only the attributes read by the
index, the clone resolver and the field-path builder are kept: "key",
"type", "name", "clone" (the reference list of a clone field) and
"sub_fields"; a `none` models an absent dict entry. -/
inductive Field where
  | mk : Option String → Option String → Option String →
         Option (List String) → Option (List Field) → Field

/-- key is the "key" entry of the field dict, when present. -/
def Field.key : Field → Option String
  | .mk k _ _ _ _ => k

/-- ftype is the "type" entry of the field dict, when present. -/
def Field.ftype : Field → Option String
  | .mk _ t _ _ _ => t

/-- fname is the "name" entry of the field dict, when present. -/
def Field.fname : Field → Option String
  | .mk _ _ n _ _ => n

/-- cloneRefs is the "clone" entry of the field dict, when present. -/
def Field.cloneRefs : Field → Option (List String)
  | .mk _ _ _ c _ => c

/-- subFields is the "sub_fields" entry of the field dict, when present. -/
def Field.subFields : Field → Option (List Field)
  | .mk _ _ _ _ s => s

/-- keyD models `field.get("key", "")`. -/
def Field.keyD (f : Field) : String := f.key.getD ""

/-- typeD models `field.get("type")` compared against string tags: the
comparison `None == tag` is False in Python, exactly as `"" = tag` is
false here for every nonempty tag. -/
def Field.typeD (f : Field) : String := f.ftype.getD ""

/-- nameD models `field.get("name", "")`. -/
def Field.nameD (f : Field) : String := f.fname.getD ""

/-- cloneD models `clone_field.get("clone", [])`. -/
def Field.cloneD (f : Field) : List String := f.cloneRefs.getD []

/-- subFieldsD models `field.get("sub_fields", [])`. -/
def Field.subFieldsD (f : Field) : List Field := f.subFields.getD []

/-- ACFIndex models the pre-built index of src/acf/index.py as the clone
resolver consumes it: `groups` maps a group key to that group's "fields"
list (the resolver reads only `index.groups[k].get("fields", [])`), and
`fields` maps a field key to the field dict. -/
structure ACFIndex where
  groups : List (String × List Field)
  fields : List (String × Field)

/-- joinSep models Python `sep.join(items)`. -/
def joinSep (sep : String) : List String → String
  | [] => ""
  | [x] => x
  | x :: y :: rest => x ++ sep ++ joinSep sep (y :: rest)

/-- Err models the exceptions the pipeline can raise: the ValueError for
a circular clone reference (carrying the visited chain and the revisited
key), a KeyError naming the missing dict key, and exhaustion of the
explicit fuel standing in for Python's unbounded recursion. -/
inductive Err where
  | circular : List String → String → Err
  | keyError : String → Err
  | outOfFuel : Err
deriving DecidableEq

/-- message reproduces the ValueError message built at
clone_resolver.py lines 46-49 for a circular reference. -/
def Err.message : Err → String
  | .circular visited fieldKey =>
      "Circular clone reference detected at " ++ fieldKey ++ ". Chain: " ++
        joinSep " -> " visited ++ " -> " ++ fieldKey
  | .keyError k => "KeyError: " ++ k
  | .outOfFuel => "recursion limit exceeded"

mutual

/-- prefixField rewrites one field dict exactly as the loop body of
`_prefix_keys` does: shallow copy, prefix the "key" entry when present,
recurse into the "sub_fields" entry when it is a list. -/
def prefixField (cloneKey : String) : Field → Field
  | .mk k t n c s =>
    .mk (match k with
         | some key => some (cloneKey ++ "_" ++ key)
         | none => none)
        t n c
        (match s with
         | some l => some (prefixList cloneKey l)
         | none => none)

/-- prefixList prefixes every field of a list, as the `for field in
fields` loop of `_prefix_keys` does once the clone key is nonempty. -/
def prefixList (cloneKey : String) : List Field → List Field
  | [] => []
  | f :: rest => prefixField cloneKey f :: prefixList cloneKey rest

end

/-- prefixKeys models `_prefix_keys` (clone_resolver.py lines 98-120):
an empty clone key returns the list unchanged, otherwise every field is
copied with its key (and recursively the keys of its sub_fields)
rewritten to cloneKey ++ "_" ++ original key. -/
def prefixKeys (fields : List Field) (cloneKey : String) : List Field :=
  if cloneKey = "" then fields else prefixList cloneKey fields

/-- resolveGroupRefAux models the loop of `_resolve_group_ref`
(clone_resolver.py lines 66-81); `rc` is the recursive reference to
`resolve_clone`, supplied by `resolveClone` at the next smaller fuel. -/
def resolveGroupRefAux (rc : Field → List String → Except Err (List Field)) :
    List Field → List String → Except Err (List Field)
  | [], _ => .ok []
  | f :: rest, visited =>
    match (if f.typeD = "clone" then rc f visited else .ok [f]) with
    | .error e => .error e
    | .ok head =>
      match resolveGroupRefAux rc rest visited with
      | .error e => .error e
      | .ok tail => .ok (head ++ tail)

/-- resolveFieldRefAux models `_resolve_field_ref` (clone_resolver.py
lines 84-95). -/
def resolveFieldRefAux (rc : Field → List String → Except Err (List Field))
    (field : Field) (visited : List String) : Except Err (List Field) :=
  if field.typeD = "clone" then rc field visited else .ok [field]

/-- resolveRefsAux models the reference loop of `resolve_clone`
(clone_resolver.py lines 55-61): a reference found among the groups
expands to the group's fields, else a reference found among the fields
expands to that field, else it is skipped with a non-fatal warning. -/
def resolveRefsAux (index : ACFIndex)
    (rc : Field → List String → Except Err (List Field)) :
    List String → List String → Except Err (List Field)
  | [], _ => .ok []
  | ref :: rest, visited =>
    match (match dictGet index.groups ref with
           | some gfields => resolveGroupRefAux rc gfields visited
           | none =>
             match dictGet index.fields ref with
             | some f => resolveFieldRefAux rc f visited
             | none => .ok []) with
    | .error e => .error e
    | .ok head =>
      match resolveRefsAux index rc rest visited with
      | .error e => .error e
      | .ok tail => .ok (head ++ tail)

/-- resolveClone models `resolve_clone` (clone_resolver.py lines 14-63).
The fuel bounds the clone-nesting depth: the recursive calls made from
`_resolve_group_ref` and `_resolve_field_ref` receive the function at
the next smaller fuel. -/
def resolveClone (index : ACFIndex) : Nat → Field → List String → Except Err (List Field)
  | 0, _, _ => .error .outOfFuel
  | fuel + 1, cloneField, visited =>
    if cloneField.keyD ∈ visited then
      .error (.circular visited cloneField.keyD)
    else
      match resolveRefsAux index (resolveClone index fuel) cloneField.cloneD
          (visited ++ [cloneField.keyD]) with
      | .error e => .error e
      | .ok resolved => .ok (prefixKeys resolved cloneField.keyD)

/-- dictGet_mem relates a successful dict lookup to list membership. -/
theorem dictGet_mem {β : Type} {l : List (String × β)} {k : String} {v : β}
    (h : dictGet l k = some v) : (k, v) ∈ l := by
  induction l with
  | nil => simp [dictGet] at h
  | cons p rest ih =>
    obtain ⟨k', v'⟩ := p
    rw [dictGet] at h
    by_cases hk : k' = k
    · rw [if_pos hk] at h
      cases h
      subst hk
      exact List.mem_cons_self _ _
    · rw [if_neg hk] at h
      exact List.mem_cons_of_mem _ (ih h)

/-- prefixList acts elementwise. -/
theorem prefixList_eq_map (ck : String) (l : List Field) :
    prefixList ck l = l.map (prefixField ck) := by
  induction l with
  | nil => rfl
  | cons f rest ih => rw [prefixList, ih, List.map_cons]

/-- prefixField leaves the "type" entry untouched. -/
theorem typeD_prefixField (ck : String) (f : Field) :
    (prefixField ck f).typeD = f.typeD := by
  cases f with
  | mk k t n c s => rfl

/-- Every element of a prefixed list shares its "type" entry with an
element of the original list. -/
theorem mem_prefixKeys_typeD {l : List Field} {ck : String} {x : Field}
    (hx : x ∈ prefixKeys l ck) : ∃ y, y ∈ l ∧ x.typeD = y.typeD := by
  unfold prefixKeys at hx
  split at hx
  · exact ⟨x, hx, rfl⟩
  · rw [prefixList_eq_map] at hx
    obtain ⟨y, hy, rfl⟩ := List.mem_map.mp hx
    exact ⟨y, hy, typeD_prefixField ..⟩

/-- fieldFromIndex says a field dict is stored in the index, either
inside some indexed group's field list or as an indexed field; these are
the only fields the resolver can reach through a reference. -/
def fieldFromIndex (index : ACFIndex) (g : Field) : Prop :=
  (∃ p, p ∈ index.groups ∧ g ∈ p.2) ∨ (∃ p, p ∈ index.fields ∧ p.2 = g)

/-- Errors escaping `_resolve_group_ref` come from a recursive
`resolve_clone` call on some clone-typed field of the group. -/
theorem resolveGroupRefAux_error {rc : Field → List String → Except Err (List Field)}
    {fs : List Field} {visited : List String} {e : Err}
    (h : resolveGroupRefAux rc fs visited = .error e) :
    ∃ g, g ∈ fs ∧ g.typeD = "clone" ∧ rc g visited = .error e := by
  induction fs with
  | nil => simp [resolveGroupRefAux] at h
  | cons f rest ih =>
    rw [resolveGroupRefAux] at h
    split at h
    · next heq =>
      split at heq
      · next hc =>
        cases h
        exact ⟨f, List.mem_cons_self _ _, hc, heq⟩
      · cases heq
    · next heq =>
      split at h
      · cases h
        obtain ⟨g, hg, hgc, hrc⟩ := ih (by assumption)
        exact ⟨g, List.mem_cons_of_mem _ hg, hgc, hrc⟩
      · cases h

/-- Errors escaping `_resolve_field_ref` come from a recursive
`resolve_clone` call on the referenced field, which must be clone-typed. -/
theorem resolveFieldRefAux_error {rc : Field → List String → Except Err (List Field)}
    {f : Field} {visited : List String} {e : Err}
    (h : resolveFieldRefAux rc f visited = .error e) :
    f.typeD = "clone" ∧ rc f visited = .error e := by
  unfold resolveFieldRefAux at h
  split at h
  · exact ⟨by assumption, h⟩
  · cases h

/-- Errors escaping the reference loop of `resolve_clone` come from a
recursive call on some clone-typed field stored in the index. -/
theorem resolveRefsAux_error {index : ACFIndex}
    {rc : Field → List String → Except Err (List Field)}
    {refs visited : List String} {e : Err}
    (h : resolveRefsAux index rc refs visited = .error e) :
    ∃ g, fieldFromIndex index g ∧ g.typeD = "clone" ∧ rc g visited = .error e := by
  induction refs with
  | nil => simp [resolveRefsAux] at h
  | cons ref rest ih =>
    rw [resolveRefsAux] at h
    split at h
    · next heq =>
      split at heq
      · next gfields hgrp =>
        cases h
        obtain ⟨g, hg, hgc, hrc⟩ := resolveGroupRefAux_error heq
        exact ⟨g, Or.inl ⟨(ref, gfields), dictGet_mem hgrp, hg⟩, hgc, hrc⟩
      · split at heq
        · next f hfld =>
          cases h
          obtain ⟨hgc, hrc⟩ := resolveFieldRefAux_error heq
          exact ⟨f, Or.inr ⟨(ref, f), dictGet_mem hfld, rfl⟩, hgc, hrc⟩
        · cases heq
    · split at h
      · cases h
        exact ih (by assumption)
      · cases h

/-- Elements of a successful `_resolve_group_ref` result are either
non-clone fields of the group kept as-is or come from a recursive
`resolve_clone` call. -/
theorem resolveGroupRefAux_ok_mem {rc : Field → List String → Except Err (List Field)}
    {fs : List Field} {visited : List String} {l : List Field}
    (h : resolveGroupRefAux rc fs visited = .ok l) :
    ∀ x ∈ l, x.typeD ≠ "clone" ∨ ∃ g lg, rc g visited = .ok lg ∧ x ∈ lg := by
  induction fs generalizing l with
  | nil =>
    rw [resolveGroupRefAux] at h
    cases h
    intro x hx
    cases hx
  | cons f rest ih =>
    rw [resolveGroupRefAux] at h
    split at h
    · cases h
    · next head heq =>
      split at h
      · cases h
      · next tail heqt =>
        cases h
        intro x hx
        rcases List.mem_append.mp hx with hxh | hxt
        · split at heq
          · exact Or.inr ⟨f, head, heq, hxh⟩
          · next hc =>
            cases heq
            rcases List.mem_singleton.mp hxh with rfl
            exact Or.inl hc
        · exact ih heqt x hxt

/-- Elements of a successful `_resolve_field_ref` result are either the
non-clone referenced field itself or come from a recursive
`resolve_clone` call. -/
theorem resolveFieldRefAux_ok_mem {rc : Field → List String → Except Err (List Field)}
    {f : Field} {visited : List String} {l : List Field}
    (h : resolveFieldRefAux rc f visited = .ok l) :
    ∀ x ∈ l, x.typeD ≠ "clone" ∨ ∃ g lg, rc g visited = .ok lg ∧ x ∈ lg := by
  unfold resolveFieldRefAux at h
  split at h
  · exact fun x hx => Or.inr ⟨f, l, h, hx⟩
  · next hc =>
    cases h
    intro x hx
    rcases List.mem_singleton.mp hx with rfl
    exact Or.inl hc

/-- Elements of a successful reference-loop result are either non-clone
fields kept as-is or come from a recursive `resolve_clone` call. -/
theorem resolveRefsAux_ok_mem {index : ACFIndex}
    {rc : Field → List String → Except Err (List Field)}
    {refs visited : List String} {l : List Field}
    (h : resolveRefsAux index rc refs visited = .ok l) :
    ∀ x ∈ l, x.typeD ≠ "clone" ∨ ∃ g lg, rc g visited = .ok lg ∧ x ∈ lg := by
  induction refs generalizing l with
  | nil =>
    rw [resolveRefsAux] at h
    cases h
    intro x hx
    cases hx
  | cons ref rest ih =>
    rw [resolveRefsAux] at h
    split at h
    · cases h
    · next head heq =>
      split at h
      · cases h
      · next tail heqt =>
        cases h
        intro x hx
        rcases List.mem_append.mp hx with hxh | hxt
        · split at heq
          · exact resolveGroupRefAux_ok_mem heq x hxh
          · split at heq
            · exact resolveFieldRefAux_ok_mem heq x hxh
            · cases heq
              cases hxh
        · exact ih heqt x hxt

/-- Every successful `resolve_clone` result is clone-free at the top
level: no element of the returned list has type "clone". -/
theorem resolveClone_ok_clone_free :
    ∀ (fuel : Nat) (index : ACFIndex) (f : Field) (visited : List String)
      (l : List Field), resolveClone index fuel f visited = .ok l →
      ∀ x ∈ l, x.typeD ≠ "clone" := by
  intro fuel
  induction fuel with
  | zero =>
    intro index f visited l h
    rw [resolveClone] at h
    cases h
  | succ m ih =>
    intro index f visited l h x hx
    rw [resolveClone] at h
    split at h
    · cases h
    · split at h
      · cases h
      · next resolved heq =>
        cases h
        obtain ⟨y, hy, hxy⟩ := mem_prefixKeys_typeD hx
        rw [hxy]
        rcases resolveRefsAux_ok_mem heq y hy with hnc | ⟨g, lg, hrc, hylg⟩
        · exact hnc
        · exact ih index g _ lg hrc y hylg

/-- Errors escaping `resolve_clone` are circular-reference errors or
fuel exhaustion; no other exception can arise during clone resolution. -/
theorem resolveClone_error_shape :
    ∀ (fuel : Nat) (index : ACFIndex) (f : Field) (visited : List String)
      (e : Err), resolveClone index fuel f visited = .error e →
      (∃ chain k, e = .circular chain k) ∨ e = .outOfFuel := by
  intro fuel
  induction fuel with
  | zero =>
    intro index f visited e h
    rw [resolveClone] at h
    cases h
    exact Or.inr rfl
  | succ m ih =>
    intro index f visited e h
    rw [resolveClone] at h
    split at h
    · cases h
      exact Or.inl ⟨_, _, rfl⟩
    · split at h
      · cases h
        obtain ⟨g, _, _, hrc⟩ := resolveRefsAux_error (by assumption)
        exact ih index g _ _ hrc
      · cases h

/-- Circular errors escaping `resolve_clone` carry a chain that extends
the visited path the call started from, and the revisited key is a
member of that chain. -/
theorem resolveClone_circular_chain :
    ∀ (fuel : Nat) (index : ACFIndex) (f : Field) (visited : List String)
      (chain : List String) (k : String),
      resolveClone index fuel f visited = .error (.circular chain k) →
      visited <+: chain ∧ k ∈ chain := by
  intro fuel
  induction fuel with
  | zero =>
    intro index f visited chain k h
    rw [resolveClone] at h
    cases h
  | succ m ih =>
    intro index f visited chain k h
    rw [resolveClone] at h
    split at h
    · next hmem =>
      cases h
      exact ⟨List.prefix_refl _, hmem⟩
    · split at h
      · cases h
        obtain ⟨g, _, _, hrc⟩ := resolveRefsAux_error (by assumption)
        obtain ⟨hpre, hk⟩ := ih index g _ chain k hrc
        exact ⟨((visited.prefix_append [f.keyD]).trans hpre), hk⟩
      · cases h

/-- indexCloneKeys collects the keys of every clone-typed field stored
in the index, which are the only fields the resolver can recurse into. -/
def indexCloneKeys (index : ACFIndex) : List String :=
  (index.groups.map
      (fun p => ((p.2.filter (fun f => f.typeD == "clone")).map Field.keyD))).flatten ++
    ((index.fields.filter (fun p => p.2.typeD == "clone")).map (fun p => p.2.keyD))

/-- Clone-typed fields reachable from the index contribute their key to
`indexCloneKeys`. -/
theorem keyD_mem_indexCloneKeys {index : ACFIndex} {g : Field}
    (hg : fieldFromIndex index g) (hc : g.typeD = "clone") :
    g.keyD ∈ indexCloneKeys index := by
  unfold indexCloneKeys
  rcases hg with ⟨p, hp, hmem⟩ | ⟨p, hp, hpe⟩
  · refine List.mem_append_left _ ?_
    refine List.mem_flatten.mpr ⟨(p.2.filter (fun f => f.typeD == "clone")).map Field.keyD,
      List.mem_map_of_mem _ hp, ?_⟩
    exact List.mem_map_of_mem _ (List.mem_filter.mpr ⟨hmem, by simp [hc]⟩)
  · refine List.mem_append_right _ ?_
    have : p ∈ index.fields.filter (fun p => p.2.typeD == "clone") :=
      List.mem_filter.mpr ⟨hp, by simp [hpe, hc]⟩
    simpa [hpe] using List.mem_map_of_mem (fun p => p.2.keyD) this

/-- visitedCount counts the clone keys of the index not yet on the
visited path; it strictly decreases whenever resolution enters a fresh
clone taken from the index. -/
def visitedCount (index : ACFIndex) (visited : List String) : Nat :=
  ((indexCloneKeys index).toFinset \ visited.toFinset).card

/-- Extending the visited path cannot increase the count. -/
theorem visitedCount_append_le (index : ACFIndex) (visited l : List String) :
    visitedCount index (visited ++ l) ≤ visitedCount index visited := by
  apply Finset.card_le_card
  apply Finset.sdiff_subset_sdiff (le_refl _)
  intro x hx
  rw [List.mem_toFinset] at hx ⊢
  exact List.mem_append_left _ hx

/-- Entering a fresh clone key of the index strictly decreases the
count. -/
theorem visitedCount_append_lt {index : ACFIndex} {visited : List String}
    {k : String} (hk : k ∈ indexCloneKeys index) (hnv : k ∉ visited) :
    visitedCount index (visited ++ [k]) < visitedCount index visited := by
  apply Finset.card_lt_card
  rw [Finset.ssubset_def]
  constructor
  · apply Finset.sdiff_subset_sdiff (le_refl _)
    intro x hx
    rw [List.mem_toFinset] at hx ⊢
    exact List.mem_append_left _ hx
  · intro hsub
    have hkin : k ∈ (indexCloneKeys index).toFinset \ visited.toFinset := by
      rw [Finset.mem_sdiff, List.mem_toFinset, List.mem_toFinset]
      exact ⟨hk, hnv⟩
    have := hsub hkin
    rw [Finset.mem_sdiff, List.mem_toFinset, List.mem_toFinset] at this
    exact this.2 (List.mem_append_right _ (List.mem_singleton_self _))

/-- Fuel sufficiency for `resolve_clone`: enough fuel, measured by the
clone keys of the index not yet visited, rules out fuel exhaustion, so
the only way resolution can fail is a circular reference. -/
theorem resolveClone_fuel_sufficient :
    ∀ (fuel : Nat) (index : ACFIndex) (f : Field) (visited : List String),
      f.keyD ∉ visited →
      visitedCount index (visited ++ [f.keyD]) + 2 ≤ fuel →
      resolveClone index fuel f visited ≠ .error .outOfFuel := by
  intro fuel
  induction fuel using Nat.strong_induction_on with
  | _ fuel ih =>
    intro index f visited hnv hcount h
    match fuel, hcount with
    | m + 1, hcount =>
      rw [resolveClone] at h
      rw [if_neg hnv] at h
      split at h
      · next e heq =>
        cases h
        obtain ⟨g, hgidx, hgc, hrc⟩ := resolveRefsAux_error heq
        have hgk : g.keyD ∈ indexCloneKeys index := keyD_mem_indexCloneKeys hgidx hgc
        by_cases hgv : g.keyD ∈ visited ++ [f.keyD]
        · match m, hcount with
          | m' + 1, _ =>
            rw [resolveClone, if_pos hgv] at hrc
            cases hrc
        · have hlt := @visitedCount_append_lt index (visited ++ [f.keyD]) g.keyD hgk hgv
          exact ih m (Nat.lt_succ_self m) index g (visited ++ [f.keyD]) hgv
            (by omega) hrc
      · cases h

/-- strContains says `pat` occurs as a contiguous substring of `s`,
expressed on the underlying character lists. -/
def strContains (s pat : String) : Prop := pat.data <:+: s.data

/-- Appending on the left of the data lists. -/
theorem strData_append (a b : String) : (a ++ b).data = a.data ++ b.data := rfl

/-- Every string contains itself. -/
theorem strContains_self (s : String) : strContains s s := List.infix_refl _

/-- Containment survives prepending text. -/
theorem strContains_append_left {s pat : String} (t : String)
    (h : strContains s pat) : strContains (t ++ s) pat := by
  unfold strContains at h ⊢
  rw [strData_append]
  exact h.trans (List.suffix_append _ _).isInfix

/-- Containment survives appending text. -/
theorem strContains_append_right {s pat : String} (t : String)
    (h : strContains s pat) : strContains (s ++ t) pat := by
  unfold strContains at h ⊢
  rw [strData_append]
  exact h.trans (List.prefix_append _ _).isInfix

/-- Every member of a joined list occurs in the joined string. -/
theorem joinSep_contains {sep : String} {l : List String} {c : String}
    (hc : c ∈ l) : strContains (joinSep sep l) c := by
  induction l with
  | nil => cases hc
  | cons x rest ih =>
    cases rest with
    | nil =>
      rcases List.mem_singleton.mp hc with rfl
      exact strContains_self c
    | cons y rest' =>
      rw [joinSep]
      rcases List.mem_cons.mp hc with rfl | hmem
      · exact strContains_append_right _ (strContains_append_right _ (strContains_self c))
      · exact strContains_append_left _ (ih hmem)

/-- Every string of the form a ++ b ++ c contains b ++ c. -/
theorem strContains_left_pair (a b c : String) : strContains (a ++ b ++ c) (b ++ c) := by
  unfold strContains
  rw [strData_append, strData_append, strData_append, List.append_assoc]
  exact (List.suffix_append _ _).isInfix

/-- Every chain element occurs in the circular-reference message. -/
theorem message_contains_chain {chain : List String} {k c : String}
    (hc : c ∈ chain) : strContains (Err.message (.circular chain k)) c := by
  show strContains ("Circular clone reference detected at " ++ k ++ ". Chain: " ++
    joinSep " -> " chain ++ " -> " ++ k) c
  exact strContains_append_right _ (strContains_append_right _
    (strContains_append_left _ (joinSep_contains hc)))

/-- The revisited key, preceded by the arrow separator, ends the
circular-reference message. -/
theorem message_contains_revisit (chain : List String) (k : String) :
    strContains (Err.message (.circular chain k)) (" -> " ++ k) := by
  show strContains ("Circular clone reference detected at " ++ k ++ ". Chain: " ++
    joinSep " -> " chain ++ " -> " ++ k) (" -> " ++ k)
  exact strContains_left_pair _ _ _

/-- cloneFuelBound is a concrete sufficient fuel for `resolve_clone`:
two more than the number of distinct clone keys stored in the index. -/
def cloneFuelBound (index : ACFIndex) : Nat :=
  (indexCloneKeys index).toFinset.card + 2

/-- C2: for every clone field and index whose clone-reference graph is
acyclic — formalised by the claim's own reading, no resolution branch
revisits a clone key, i.e. the run raises no circular-reference error —
`resolve_clone`, run at the concrete sufficient fuel `cloneFuelBound`,
terminates without raising (returns a result rather than exhausting
fuel) and every element of the returned list has a type other than
"clone". -/
theorem c2_acyclic_resolution_terminates_clone_free
    (index : ACFIndex) (f : Field)
    (hacyclic : ∀ chain k,
      resolveClone index (cloneFuelBound index) f [] ≠ .error (.circular chain k)) :
    ∃ l, resolveClone index (cloneFuelBound index) f [] = .ok l ∧
      ∀ x ∈ l, x.typeD ≠ "clone" := by
  have hfuel : resolveClone index (cloneFuelBound index) f [] ≠ .error .outOfFuel := by
    apply resolveClone_fuel_sufficient
    · simp
    · have hle : visitedCount index ([] ++ [f.keyD]) ≤
          (indexCloneKeys index).toFinset.card :=
        Finset.card_le_card (Finset.sdiff_subset)
      unfold cloneFuelBound
      omega
  cases hres : resolveClone index (cloneFuelBound index) f [] with
  | ok l => exact ⟨l, rfl, resolveClone_ok_clone_free _ _ _ _ _ hres⟩
  | error e =>
    rcases resolveClone_error_shape _ _ _ _ _ hres with ⟨chain, k, rfl⟩ | rfl
    · exact absurd hres (hacyclic chain k)
    · exact absurd hres hfuel

/-- c2Leaf is a plain leaf field used by the concrete examples. -/
def c2Leaf : Field := .mk (some "F") (some "text") (some "f") none none

/-- c2B is a clone field referencing the leaf through the index. -/
def c2B : Field := .mk (some "B") (some "clone") (some "b") (some ["field_f"]) none

/-- c2A is a clone field referencing the clone c2B through the index. -/
def c2A : Field := .mk (some "A") (some "clone") (some "a") (some ["field_b"]) none

/-- c2Idx indexes the two referenced fields. -/
def c2Idx : ACFIndex := ⟨[], [("field_b", c2B), ("field_f", c2Leaf)]⟩

/-- Witness for C2 at a concrete acyclic two-clone chain. -/
theorem c2_witness :
    ∃ l, resolveClone c2Idx (cloneFuelBound c2Idx) c2A [] = .ok l ∧
      ∀ x ∈ l, x.typeD ≠ "clone" := by
  apply c2_acyclic_resolution_terminates_clone_free
  intro chain k hcontra
  rw [show resolveClone c2Idx (cloneFuelBound c2Idx) c2A [] =
    .ok [prefixField "A" (prefixField "B" c2Leaf)] from rfl] at hcontra
  cases hcontra

/-- C3: whenever a clone resolution branch revisits the clone's own key,
`resolve_clone` raises a circular-reference error; the chain it carries
extends the visited path of the offending branch, contains the revisited
key, and the error message contains every clone key of the chain together
with the revisited key appended after the final arrow. -/
theorem c3_circular_error_message_carries_chain
    (fuel : Nat) (index : ACFIndex) (f : Field) (visited chain : List String)
    (k : String)
    (h : resolveClone index fuel f visited = .error (.circular chain k)) :
    visited <+: chain ∧ k ∈ chain ∧
      (∀ c ∈ chain, strContains (Err.message (.circular chain k)) c) ∧
      strContains (Err.message (.circular chain k)) (" -> " ++ k) := by
  obtain ⟨hpre, hk⟩ := resolveClone_circular_chain fuel index f visited chain k h
  exact ⟨hpre, hk, fun c hc => message_contains_chain hc,
    message_contains_revisit chain k⟩

/-- c3Self is a clone field whose reference chain revisits itself. -/
def c3Self : Field := .mk (some "X") (some "clone") none (some ["field_x"]) none

/-- c3Idx indexes the self-referencing clone under the key it cites. -/
def c3Idx : ACFIndex := ⟨[], [("field_x", c3Self)]⟩

/-- Witness for C3 at a concrete self-referencing clone. -/
theorem c3_witness :
    strContains (Err.message (.circular ["X"] "X")) "X" ∧
      strContains (Err.message (.circular ["X"] "X")) (" -> " ++ "X") := by
  have h := c3_circular_error_message_carries_chain 3 c3Idx c3Self [] ["X"] "X" rfl
  exact ⟨h.2.2.1 "X" (List.mem_singleton_self _), h.2.2.2⟩

/-- C1: resolving clone A referencing clone B referencing leaf field F
yields F with key exactly A_B_F: the inner clone is resolved and
prefixed before the outer prefix is applied, so prefixes accumulate
inner-to-outer. -/
theorem c1_nested_clone_prefix_accumulates
    (index : ACFIndex) (n : Nat) (A B F : Field) (rB rF kA kB kF : String)
    (hAk : A.keyD = kA) (hArefs : A.cloneD = [rB])
    (hgB : dictGet index.groups rB = none)
    (hfB : dictGet index.fields rB = some B)
    (hBt : B.typeD = "clone") (hBk : B.keyD = kB) (hBrefs : B.cloneD = [rF])
    (hgF : dictGet index.groups rF = none)
    (hfF : dictGet index.fields rF = some F)
    (hFt : F.typeD ≠ "clone") (hFk : F.key = some kF)
    (hkA : kA ≠ "") (hkB : kB ≠ "") (hAB : kB ≠ kA) :
    resolveClone index (n + 2) A [] = .ok [prefixField kA (prefixField kB F)] ∧
      (prefixField kA (prefixField kB F)).key =
        some (kA ++ "_" ++ (kB ++ "_" ++ kF)) := by
  constructor
  · simp only [resolveClone, resolveRefsAux, resolveFieldRefAux, prefixKeys, prefixList,
      hAk, hArefs, hBt, hBk, hBrefs, hgB, hfB, hgF, hfF, hFt, hkA, hkB, hAB,
      List.not_mem_nil, List.mem_singleton, List.nil_append, List.append_nil,
      ne_eq, not_false_eq_true, ite_true, ite_false, if_true, if_false]
  · cases F with
    | mk k0 t0 n0 c0 s0 =>
      rw [Field.key] at hFk
      subst hFk
      rfl

/-- c1Leaf is the leaf field F of the C1 witness. -/
def c1Leaf : Field := .mk (some "F") (some "text") (some "f") none none

/-- c1B is the inner clone B of the C1 witness. -/
def c1B : Field := .mk (some "B") (some "clone") (some "b") (some ["field_f"]) none

/-- c1A is the outer clone A of the C1 witness. -/
def c1A : Field := .mk (some "A") (some "clone") (some "a") (some ["field_b"]) none

/-- c1Idx indexes the referenced clone and leaf. -/
def c1Idx : ACFIndex := ⟨[], [("field_b", c1B), ("field_f", c1Leaf)]⟩

/-- Witness for C1 at a concrete two-clone chain over a leaf. -/
theorem c1_witness :
    resolveClone c1Idx 2 c1A [] = .ok [prefixField "A" (prefixField "B" c1Leaf)] ∧
      (prefixField "A" (prefixField "B" c1Leaf)).key =
        some ("A" ++ "_" ++ ("B" ++ "_" ++ "F")) :=
  c1_nested_clone_prefix_accumulates c1Idx 0 c1A c1B c1Leaf "field_b" "field_f"
    "A" "B" "F" rfl rfl rfl rfl rfl rfl rfl rfl rfl (by decide) rfl
    (by decide) (by decide) (by decide)

mutual

/-- fieldCloneFreeDeep checks that a field is clone-free at every depth:
neither the field itself nor any field inside its recursively nested
sub_fields lists has type "clone". -/
def fieldCloneFreeDeep : Field → Bool
  | .mk _ t _ _ s =>
    (t.getD "" != "clone") &&
      (match s with
       | some l => listCloneFreeDeep l
       | none => true)

/-- listCloneFreeDeep checks a whole field list. -/
def listCloneFreeDeep : List Field → Bool
  | [] => true
  | f :: rest => fieldCloneFreeDeep f && listCloneFreeDeep rest

end

/-- c4Inner is a clone field hidden inside a group's sub_fields. -/
def c4Inner : Field := .mk (some "C") (some "clone") (some "c") (some ["grp2"]) none

/-- c4Grp is a group field whose sub_fields contain the hidden clone. -/
def c4Grp : Field := .mk (some "G") (some "group") (some "grp") none (some [c4Inner])

/-- c4A is a clone field referencing the group through the index. -/
def c4A : Field := .mk (some "A") (some "clone") none (some ["g"]) none

/-- c4Idx indexes the referenced group. -/
def c4Idx : ACFIndex := ⟨[("g", [c4Grp])], []⟩

/-- Counterexample to C4: resolving a clone that references a group
whose sub_fields contain a clone-typed field returns that group field
with the nested clone intact (only its key is prefixed), so the returned
list is not clone-free at every depth. -/
theorem c4_counterexample :
    resolveClone c4Idx 5 c4A [] =
      .ok [.mk (some "A_G") (some "group") (some "grp") none
        (some [.mk (some "A_C") (some "clone") (some "c") (some ["grp2"]) none])] ∧
      listCloneFreeDeep [.mk (some "A_G") (some "group") (some "grp") none
        (some [.mk (some "A_C") (some "clone") (some "c") (some ["grp2"]) none])] =
        false :=
  ⟨rfl, rfl⟩

/-- C4 amended: every field in the list returned by `resolve_clone` has
a type other than "clone" (top-level clone-freeness); clone-typed fields
may however survive inside the returned fields' nested sub_fields lists,
which are carried over verbatim apart from key prefixing. -/
theorem c4_amended_top_level_clone_free
    (fuel : Nat) (index : ACFIndex) (f : Field) (visited : List String)
    (l : List Field) (h : resolveClone index fuel f visited = .ok l) :
    ∀ x ∈ l, x.typeD ≠ "clone" :=
  resolveClone_ok_clone_free fuel index f visited l h

/-- Witness for the amended C4 at the concrete group-through-clone
resolution. -/
theorem c4_amended_witness :
    (Field.mk (some "A_G") (some "group") (some "grp") none
      (some [.mk (some "A_C") (some "clone") (some "c") (some ["grp2"]) none])).typeD ≠
      "clone" :=
  c4_amended_top_level_clone_free 5 c4Idx c4A []
    [.mk (some "A_G") (some "group") (some "grp") none
      (some [.mk (some "A_C") (some "clone") (some "c") (some ["grp2"]) none])]
    rfl _ (List.mem_singleton_self _)

/-- c9A is a keyless clone referencing a second keyless clone. -/
def c9A : Field := .mk none (some "clone") none (some ["f1"]) none

/-- c9B is the second keyless clone, referencing a plain leaf. -/
def c9B : Field := .mk none (some "clone") none (some ["f2"]) none

/-- c9Leaf is the plain leaf ending the chain. -/
def c9Leaf : Field := .mk (some "L") (some "text") (some "l") none none

/-- c9Idx indexes the keyless chain: c9A -> c9B -> c9Leaf, acyclic. -/
def c9Idx : ACFIndex := ⟨[], [("f1", c9B), ("f2", c9Leaf)]⟩

/-- c9AK and c9BK are the same chain with distinct nonempty keys. -/
def c9AK : Field := .mk (some "X") (some "clone") none (some ["f1"]) none

/-- c9BK is the keyed middle clone. -/
def c9BK : Field := .mk (some "Y") (some "clone") none (some ["f2"]) none

/-- c9IdxK indexes the keyed variant of the same acyclic chain. -/
def c9IdxK : ACFIndex := ⟨[], [("f1", c9BK), ("f2", c9Leaf)]⟩

/-- C9: a clone field without a "key" entry is tracked in the
cycle-detection set as the empty string, so the acyclic keyless chain
c9A -> c9B -> leaf raises a circular-reference error at the second
keyless clone, even though the identically shaped chain with distinct
keys resolves fine; and a keyless clone applies no key prefix at all. -/
theorem c9_keyless_clone_spurious_cycle_and_no_prefix :
    resolveClone c9Idx 5 c9A [] = .error (.circular [""] "") ∧
      resolveClone c9IdxK 5 c9AK [] =
        .ok [.mk (some "X_Y_L") (some "text") (some "l") none none] ∧
      ∀ fs : List Field, prefixKeys fs "" = fs :=
  ⟨rfl, rfl, fun _ => rfl⟩

/-- Value models the JSON-like Python values a content section holds:
None, booleans, strings, integers, lists and dicts. -/
inductive Value where
  | null : Value
  | vb : Bool → Value
  | vs : String → Value
  | vi : Int → Value
  | arr : List Value → Value
  | obj : List (String × Value) → Value

/-- truthy models Python truthiness for these values. -/
def truthy : Value → Bool
  | .null => false
  | .vb b => b
  | .vs s => s != ""
  | .vi i => i != 0
  | .arr l => !l.isEmpty
  | .obj l => !l.isEmpty

/-- isLeaf holds for every non-dict value: such a value is replaced
outright by the merge rather than merged keywise. -/
def isLeaf : Value → Bool
  | .obj _ => false
  | _ => true

mutual

/-- deepMerge models `_deep_merge` (defaults.py lines 91-103) on the
entry lists of the two dicts: starting from a copy of the base, every
override entry is assigned in order, the assigned value being decided by
`mergeVal`. -/
def deepMerge (base : List (String × Value)) : List (String × Value) → List (String × Value)
  | [] => base
  | (k, v) :: rest => deepMerge (dictSet base k (mergeVal (dictGet base k) v)) rest

/-- mergeVal is the per-key decision of `_deep_merge`: when the key is
already present with a dict value and the override value is a dict too,
recurse; otherwise the override value wins outright. -/
def mergeVal : Option Value → Value → Value
  | some (.obj bsub), .obj osub => .obj (deepMerge bsub osub)
  | _, v => v

end

/-- COMMON_FIELD_DEFAULTS reproduces defaults.py lines 14-21. -/
def COMMON_FIELD_DEFAULTS : List (String × Value) :=
  [("section_id", .vs ""), ("padding_override", .vs "reduced-padding"),
   ("section_width", .vs "narrow"), ("toc_exclude", .vb false),
   ("background_color", .vs ""), ("background_image", .vs "")]

/-- HEADING_DEFAULTS reproduces defaults.py lines 25-34. -/
def HEADING_DEFAULTS : List (String × Value) :=
  [("heading", .obj
    [("text", .vs ""), ("level", .vs "h2"),
     ("alignment", .obj [("desktop", .vs "inherit"), ("mobile", .vs "inherit")])])]

/-- READ_MORE_DEFAULTS reproduces defaults.py lines 37-42. -/
def READ_MORE_DEFAULTS : List (String × Value) :=
  [("read_more_text", .vs ""), ("read_less_text", .vs ""),
   ("read_more_content", .vs ""), ("read_more_mobile_only", .vb false)]

/-- MVal models the values of a compiled layout field mapping: either a
field-key string or, for a repeater entry keyed name[], a nested
mapping. -/
inductive MVal where
  | fkey : String → MVal
  | sub : List (String × MVal) → MVal

/-- getDefaultsForLayout models `get_defaults_for_layout` (defaults.py
lines 45-71): each bundle is applied when its trigger path is present in
the layout's field mapping; `_deep_copy_dict` is the identity in a pure
model and the dict updates are kept verbatim. -/
def getDefaultsForLayout (layoutFields : List (String × MVal)) : List (String × Value) :=
  let d1 := if (dictGet layoutFields "section_id").isSome
    then dictUpdate [] COMMON_FIELD_DEFAULTS else []
  let d2 := if (dictGet layoutFields "heading.text").isSome
    then dictUpdate d1 HEADING_DEFAULTS else d1
  if (dictGet layoutFields "read_more_text").isSome
    then dictUpdate d2 READ_MORE_DEFAULTS else d2

/-- applyDefaults models `apply_defaults` (defaults.py lines 74-88). -/
def applyDefaults (sect : List (String × Value))
    (layoutFields : List (String × MVal)) : List (String × Value) :=
  deepMerge (getDefaultsForLayout layoutFields) sect

/-- lookupPath follows a dot-path, one key per step, through nested
dicts. -/
def lookupPath : Value → List String → Option Value
  | v, [] => some v
  | .obj entries, k :: rest =>
    match dictGet entries k with
    | some v => lookupPath v rest
    | none => none
  | _, _ :: _ => none

/-- keysNodupV checks that the keys of an entry list are pairwise
distinct, as the keys of a Python dict necessarily are. -/
def keysNodupV : List (String × Value) → Bool
  | [] => true
  | (k, _) :: rest => !(rest.any (fun p => p.1 == k)) && keysNodupV rest

mutual

/-- wfValue checks that every dict inside a value has pairwise distinct
keys, the invariant every tree decoded from Python dicts satisfies. -/
def wfValue : Value → Bool
  | .obj entries => keysNodupV entries && wfEntries entries
  | _ => true

/-- wfEntries checks every value of an entry list. -/
def wfEntries : List (String × Value) → Bool
  | [] => true
  | (_, v) :: rest => wfValue v && wfEntries rest

end

/-- Assigning a key makes it retrievable. -/
theorem dictGet_dictSet_same {β : Type} (l : List (String × β)) (k : String) (v : β) :
    dictGet (dictSet l k v) k = some v := by
  induction l with
  | nil => simp [dictSet, dictGet]
  | cons p rest ih =>
    obtain ⟨k', v'⟩ := p
    rw [dictSet]
    by_cases hk : k' = k
    · rw [if_pos hk, dictGet, if_pos rfl]
    · rw [if_neg hk, dictGet, if_neg hk]
      exact ih

/-- Assigning one key leaves the others unchanged. -/
theorem dictGet_dictSet_other {β : Type} {l : List (String × β)} {k' k : String}
    (hk : k' ≠ k) (v : β) : dictGet (dictSet l k' v) k = dictGet l k := by
  induction l with
  | nil => simp [dictSet, dictGet, hk]
  | cons p rest ih =>
    obtain ⟨k0, v0⟩ := p
    by_cases h0 : k0 = k'
    · subst h0
      rw [dictSet, if_pos rfl, dictGet, if_neg hk, dictGet, if_neg hk]
    · rw [dictSet, if_neg h0, dictGet, dictGet]
      by_cases h1 : k0 = k
      · rw [if_pos h1, if_pos h1]
      · rw [if_neg h1, if_neg h1]
        exact ih

/-- Keys reported absent by `any` are not retrievable. -/
theorem dictGet_eq_none_of_any_false {β : Type} {l : List (String × β)} {k : String}
    (h : l.any (fun p => p.1 == k) = false) : dictGet l k = none := by
  induction l with
  | nil => rfl
  | cons p rest ih =>
    obtain ⟨k0, v0⟩ := p
    rw [List.any_cons, Bool.or_eq_false_iff] at h
    rw [dictGet, if_neg (by simpa using h.1)]
    exact ih h.2

/-- Merging only touches keys of the override dict. -/
theorem deepMerge_dictGet_not_mem {override : List (String × Value)} {k : String}
    (hk : ∀ p ∈ override, p.1 ≠ k) (base : List (String × Value)) :
    dictGet (deepMerge base override) k = dictGet base k := by
  induction override generalizing base with
  | nil => rw [deepMerge]
  | cons p rest ih =>
    obtain ⟨k0, v0⟩ := p
    rw [deepMerge]
    rw [ih (fun q hq => hk q (List.mem_cons_of_mem _ hq))]
    exact dictGet_dictSet_other (hk (k0, v0) (List.mem_cons_self _ _)) _

/-- deepMerge_dictGet characterises the merge at every key, assuming the
override dict has distinct keys as every Python dict does: a key present
in the override is assigned the `mergeVal` decision against the base
value, and keys absent from the override keep the base value. -/
theorem deepMerge_dictGet {override : List (String × Value)}
    (hnd : keysNodupV override = true) (base : List (String × Value)) (k : String) :
    dictGet (deepMerge base override) k =
      match dictGet override k with
      | some v => some (mergeVal (dictGet base k) v)
      | none => dictGet base k := by
  induction override generalizing base with
  | nil => rw [deepMerge, dictGet]
  | cons p rest ih =>
    obtain ⟨k0, v0⟩ := p
    rw [keysNodupV, Bool.and_eq_true, Bool.not_eq_true'] at hnd
    rw [deepMerge]
    rw [ih hnd.2]
    by_cases hk : k0 = k
    · subst hk
      have hrest : dictGet rest k0 = none :=
        dictGet_eq_none_of_any_false hnd.1
      rw [hrest, dictGet, if_pos rfl, dictGet_dictSet_same]
    · rw [dictGet, if_neg hk]
      rw [dictGet_dictSet_other hk]

/-- Values stored in a well-formed entry list are well-formed. -/
theorem wfEntries_mem {l : List (String × Value)} {k : String} {w : Value}
    (hwf : wfEntries l = true) (hmem : (k, w) ∈ l) : wfValue w = true := by
  induction l with
  | nil => cases hmem
  | cons p rest ih =>
    obtain ⟨k0, v0⟩ := p
    rw [wfEntries, Bool.and_eq_true] at hwf
    rcases List.mem_cons.mp hmem with heq | hmem'
    · cases heq
      exact hwf.1
    · exact ih hwf.2 hmem'

/-- mergeVal recurses on two dict values. -/
theorem mergeVal_obj_obj (bsub osub : List (String × Value)) :
    mergeVal (some (.obj bsub)) (.obj osub) = .obj (deepMerge bsub osub) := by
  rw [mergeVal]

/-- mergeVal lets a non-dict override value win outright. -/
theorem mergeVal_leaf (bv : Option Value) (v : Value) (hleaf : isLeaf v = true) :
    mergeVal bv v = v := by
  cases v with
  | obj l => rw [isLeaf] at hleaf; cases hleaf
  | null => cases bv with
    | none => simp [mergeVal]
    | some bw => cases bw <;> simp [mergeVal]
  | vb b => cases bv with
    | none => simp [mergeVal]
    | some bw => cases bw <;> simp [mergeVal]
  | vs str => cases bv with
    | none => simp [mergeVal]
    | some bw => cases bw <;> simp [mergeVal]
  | vi i => cases bv with
    | none => simp [mergeVal]
    | some bw => cases bw <;> simp [mergeVal]
  | arr l => cases bv with
    | none => simp [mergeVal]
    | some bw => cases bw <;> simp [mergeVal]

/-- mergeVal lets a dict override value win when the key is absent from
the base. -/
theorem mergeVal_none_obj (osub : List (String × Value)) :
    mergeVal none (.obj osub) = .obj osub := by
  simp [mergeVal]

/-- mergeVal lets a dict override value replace a non-dict base value
outright. -/
theorem mergeVal_leaf_obj (bv : Value) (osub : List (String × Value))
    (hleaf : isLeaf bv = true) : mergeVal (some bv) (.obj osub) = .obj osub := by
  cases bv with
  | obj l => rw [isLeaf] at hleaf; cases hleaf
  | null => simp [mergeVal]
  | vb b => simp [mergeVal]
  | vs str => simp [mergeVal]
  | vi i => simp [mergeVal]
  | arr l => simp [mergeVal]

/-- deepMerge_preserves_leaf: every leaf found in the override tree at
some path is still found, unchanged, at the same path after the override
is merged on top of any base. -/
theorem deepMerge_preserves_leaf :
    ∀ (path : List String) (override base : List (String × Value)) (v : Value),
      wfValue (.obj override) = true →
      lookupPath (.obj override) path = some v → isLeaf v = true →
      lookupPath (.obj (deepMerge base override)) path = some v := by
  intro path
  induction path with
  | nil =>
    intro override base v _ h hleaf
    rw [lookupPath] at h
    cases h
    rw [isLeaf] at hleaf
    cases hleaf
  | cons k rest ih =>
    intro override base v hwf h hleaf
    rw [wfValue, Bool.and_eq_true] at hwf
    rw [lookupPath] at h
    cases hget : dictGet override k with
    | none => rw [hget] at h; cases h
    | some w =>
      rw [hget] at h
      rw [lookupPath]
      rw [deepMerge_dictGet hwf.1, hget]
      show lookupPath (mergeVal (dictGet base k) w) rest = some v
      cases w with
      | obj osub =>
        cases hbase : dictGet base k with
        | some bv =>
          cases bv with
          | obj bsub =>
            rw [mergeVal_obj_obj]
            exact ih osub bsub v (wfEntries_mem hwf.2 (dictGet_mem hget)) h hleaf
          | null => rw [mergeVal_leaf_obj Value.null osub rfl]; exact h
          | vb b => rw [mergeVal_leaf_obj (Value.vb b) osub rfl]; exact h
          | vs str => rw [mergeVal_leaf_obj (Value.vs str) osub rfl]; exact h
          | vi i => rw [mergeVal_leaf_obj (Value.vi i) osub rfl]; exact h
          | arr l => rw [mergeVal_leaf_obj (Value.arr l) osub rfl]; exact h
        | none => rw [mergeVal_none_obj]; exact h
      | null => rw [mergeVal_leaf (dictGet base k) Value.null rfl]; exact h
      | vb b => rw [mergeVal_leaf (dictGet base k) (Value.vb b) rfl]; exact h
      | vs str => rw [mergeVal_leaf (dictGet base k) (Value.vs str) rfl]; exact h
      | vi i => rw [mergeVal_leaf (dictGet base k) (Value.vi i) rfl]; exact h
      | arr l => rw [mergeVal_leaf (dictGet base k) (Value.arr l) rfl]; exact h

/-- C5: every leaf value supplied in the user section reappears
unchanged at the same path in the result of `apply_defaults`, including
leaves nested under a partially overridden parent map; and the per-key
merge rule is: a key on both sides with two map values merges
recursively, any other user value replaces the default outright, even
when one side is a map and the other a scalar, while keys absent from
the user section keep their default. -/
theorem c5_apply_defaults_preserves_user_values
    (layoutFields : List (String × MVal)) (sect : List (String × Value))
    (hwf : wfValue (.obj sect) = true) :
    (∀ path v, lookupPath (.obj sect) path = some v → isLeaf v = true →
      lookupPath (.obj (applyDefaults sect layoutFields)) path = some v) ∧
    (∀ (base ovr : List (String × Value)) (k : String),
      keysNodupV ovr = true →
      dictGet (deepMerge base ovr) k =
        match dictGet ovr k with
        | some v => some (mergeVal (dictGet base k) v)
        | none => dictGet base k) ∧
    (∀ bsub osub, mergeVal (some (.obj bsub)) (.obj osub) = .obj (deepMerge bsub osub)) ∧
    (∀ bv v, isLeaf v = true → mergeVal bv v = v) ∧
    (∀ osub, mergeVal none (.obj osub) = .obj osub) ∧
    (∀ bv osub, isLeaf bv = true → mergeVal (some bv) (.obj osub) = .obj osub) :=
  ⟨fun path v h hleaf => deepMerge_preserves_leaf path sect _ v hwf h hleaf,
    fun base ovr k hnd => deepMerge_dictGet hnd base k,
    mergeVal_obj_obj, mergeVal_leaf, mergeVal_none_obj, mergeVal_leaf_obj⟩

/-- Witness for C5: a user heading text nested under a partially
overridden heading map survives `apply_defaults` unchanged. -/
theorem c5_witness :
    lookupPath (.obj (applyDefaults [("heading", .obj [("text", .vs "Hi")])]
      [("heading.text", .fkey "fh")])) ["heading", "text"] = some (.vs "Hi") :=
  (c5_apply_defaults_preserves_user_values [("heading.text", .fkey "fh")]
      [("heading", .obj [("text", .vs "Hi")])] rfl).1
    ["heading", "text"] (.vs "Hi") rfl rfl

/-- FieldMapping is modelled from the spec: src/acf/mapping_loader.py is
not part of src/, so the compiled-artifact container of section 4.4 of
the spec is reproduced from its words: `flexible_content_key` plus a map
from layout name to the pair of layout key and field PathMapping, with
`has_layout` a membership test and `get_layout_fields` returning the
empty map for an unknown layout. -/
structure FieldMapping where
  flexible_content_key : String
  layouts : List (String × (String × List (String × MVal)))

/-- hasLayout models `mapping.has_layout(layout_name)` for the value
found under "acf_fc_layout": only a string can name a layout of the
string-keyed layouts map. -/
def hasLayout (mapping : FieldMapping) : Value → Bool
  | .vs nm => (dictGet mapping.layouts nm).isSome
  | _ => false

/-- getLayoutFieldsV models `mapping.get_layout_fields(layout_name)`:
the layout's PathMapping, or the empty map when unknown. -/
def getLayoutFieldsV (mapping : FieldMapping) : Value → List (String × MVal)
  | .vs nm =>
    match dictGet mapping.layouts nm with
    | some p => p.2
    | none => []
  | _ => []

/-- flattenAux models `_flatten_to_dot_paths` (transformer.py lines
143-154) with the accumulating result dict made explicit; a fresh call
starts from the empty dict. -/
def flattenAux : List (String × Value) → String → List (String × Value) →
    List (String × Value)
  | [], _, acc => acc
  | (k, v) :: rest, pre, acc =>
    match v with
    | .obj sub =>
      flattenAux rest pre
        (dictUpdate acc (flattenAux sub (if pre = "" then k else pre ++ "." ++ k) []))
    | _ =>
      flattenAux rest pre (dictSet acc (if pre = "" then k else pre ++ "." ++ k) v)

/-- flattenToDotPaths models `_flatten_to_dot_paths`. -/
def flattenToDotPaths (data : List (String × Value)) (pre : String) :
    List (String × Value) :=
  flattenAux data pre []

/-- assignFlat models the inner loop of the nested-dict branch
(transformer.py lines 123-130): each flattened dot-path is assigned
under its mapped field key when the mapping holds a key string for it,
else under the literal dot-path. -/
def assignFlat : List (String × Value) → List (String × MVal) →
    List (String × Value) → List (String × Value)
  | [], _, acc => acc
  | (dotPath, val) :: rest, fm, acc =>
    match dictGet fm dotPath with
    | some (.fkey fk) => assignFlat rest fm (dictSet acc fk val)
    | _ => assignFlat rest fm (dictSet acc dotPath val)

mutual

/-- convertAux models the loop of `_convert_to_field_keys`
(transformer.py lines 88-140) with the accumulating result dict made
explicit: lists are translated through a name[] repeater sub-mapping
item by item when one exists, nested dicts are flattened to dot-paths
and each path translated when the mapping holds a key string for it, and
scalars are translated directly. -/
def convertAux : List (String × Value) → List (String × MVal) →
    List (String × Value) → List (String × Value)
  | [], _, acc => acc
  | (key, value) :: rest, fm, acc =>
    match value with
    | .arr items =>
      match dictGet fm (key ++ "[]") with
      | some (.sub subMapping) =>
        convertAux rest fm (dictSet acc key (.arr (convertItems subMapping items)))
      | _ =>
        match dictGet fm key with
        | some (.fkey fk) => convertAux rest fm (dictSet acc fk (.arr items))
        | _ => convertAux rest fm (dictSet acc key (.arr items))
    | .obj sub =>
      convertAux rest fm (assignFlat (flattenToDotPaths sub key) fm acc)
    | _ =>
      match dictGet fm key with
      | some (.fkey fk) => convertAux rest fm (dictSet acc fk value)
      | _ => convertAux rest fm (dictSet acc key value)

/-- convertItems translates the items of a repeater list: dict items are
converted through the repeater's sub-mapping, other items pass through. -/
def convertItems (subMapping : List (String × MVal)) : List Value → List Value
  | [] => []
  | .obj ie :: rest => .obj (convertAux ie subMapping []) :: convertItems subMapping rest
  | item :: rest => item :: convertItems subMapping rest

end

/-- convertToFieldKeys models `_convert_to_field_keys`. -/
def convertToFieldKeys (data : List (String × Value))
    (fieldsMapping : List (String × MVal)) : List (String × Value) :=
  convertAux data fieldsMapping []

/-- transformSection models `transform_section` (transformer.py lines
58-85): `none` stands for the KeyError the bare `section["acf_fc_layout"]`
access would raise on a section without that key. -/
def transformSection (sect : List (String × Value)) (mapping : FieldMapping) :
    Option (List (String × Value)) :=
  match dictGet sect "acf_fc_layout" with
  | none => none
  | some layoutName =>
    some (dictUpdate [("acf_fc_layout", layoutName)]
      (convertToFieldKeys
        (applyDefaults (sect.filter (fun p => p.1 != "acf_fc_layout"))
          (getLayoutFieldsV mapping layoutName))
        (getLayoutFieldsV mapping layoutName)))

/-- transformSections models the section loop of `transform_to_acf`
(transformer.py lines 34-49): a section whose "acf_fc_layout" value is
missing or falsy, or names no layout of the mapping, is skipped with a
warning; the rest are transformed in order. -/
def transformSections (mapping : FieldMapping) :
    List (List (String × Value)) → Option (List Value)
  | [] => some []
  | sect :: rest =>
    if !truthy ((dictGet sect "acf_fc_layout").getD .null) then
      transformSections mapping rest
    else if !hasLayout mapping ((dictGet sect "acf_fc_layout").getD .null) then
      transformSections mapping rest
    else
      match transformSection sect mapping with
      | none => none
      | some t =>
        match transformSections mapping rest with
        | none => none
        | some ts => some (.obj t :: ts)

/-- transformToAcf models `transform_to_acf`: the transformed sections
are wrapped under acf / flexible_content_key. -/
def transformToAcf (sections : List (List (String × Value)))
    (mapping : FieldMapping) : Option Value :=
  match transformSections mapping sections with
  | none => none
  | some ts =>
    some (.obj [("acf", .obj [(mapping.flexible_content_key, .arr ts)])])

/-- goodSection says the section's "acf_fc_layout" value is truthy and
names a layout of the mapping. -/
def goodSection (mapping : FieldMapping) (sect : List (String × Value)) : Bool :=
  truthy ((dictGet sect "acf_fc_layout").getD .null) &&
    hasLayout mapping ((dictGet sect "acf_fc_layout").getD .null)

/-- Sections accepted by the transform have a retrievable layout value,
so `transform_section` cannot raise. -/
theorem transformSection_of_good {mapping : FieldMapping}
    {sect : List (String × Value)} (hg : goodSection mapping sect = true) :
    transformSection sect mapping =
      some ((transformSection sect mapping).getD []) := by
  rw [goodSection, Bool.and_eq_true] at hg
  cases hget : dictGet sect "acf_fc_layout" with
  | none =>
    rw [hget] at hg
    simp [truthy] at hg
  | some layoutName =>
    rw [transformSection, hget]
    rfl

/-- transformSections_eq: the section loop never fails and produces
exactly the accepted sections, transformed, in their original order. -/
theorem transformSections_eq (mapping : FieldMapping) :
    ∀ sections, transformSections mapping sections =
      some ((sections.filter (fun s => goodSection mapping s)).map
        (fun s => Value.obj ((transformSection s mapping).getD []))) := by
  intro sections
  induction sections with
  | nil => rfl
  | cons sect rest ih =>
    rw [transformSections]
    by_cases ht : truthy ((dictGet sect "acf_fc_layout").getD .null) = true
    · by_cases hh : hasLayout mapping ((dictGet sect "acf_fc_layout").getD .null) = true
      · have hg : goodSection mapping sect = true := by
          simp [goodSection, ht, hh]
        rw [if_neg (by simp [ht]), if_neg (by simp [hh])]
        rw [transformSection_of_good hg]
        rw [ih]
        simp [List.filter_cons, hg]
      · have hg : goodSection mapping sect = false := by
          simp [goodSection, Bool.eq_false_iff.mpr hh]
        rw [if_neg (by simp [ht]), if_pos (by simp [Bool.eq_false_iff.mpr hh])]
        rw [ih]
        simp [List.filter_cons, hg]
    · have hg : goodSection mapping sect = false := by
        simp [goodSection, Bool.eq_false_iff.mpr ht]
      rw [if_pos (by simp [Bool.eq_false_iff.mpr ht])]
      rw [ih]
      simp [List.filter_cons, hg]

/-- C6: `transform_to_acf` never raises; every section whose
"acf_fc_layout" value is missing or falsy or names no layout of the
mapping is silently dropped, and the remaining sections are transformed
and emitted in their original order under acf / flexible_content_key. -/
theorem c6_transform_never_raises_drops_unknown
    (sections : List (List (String × Value))) (mapping : FieldMapping) :
    transformToAcf sections mapping =
      some (.obj [("acf", .obj [(mapping.flexible_content_key,
        .arr ((sections.filter (fun s => goodSection mapping s)).map
          (fun s => Value.obj ((transformSection s mapping).getD []))))])]) := by
  rw [transformToAcf, transformSections_eq]

/-- pyStr approximates Python str() for the values interpolated into
warning messages: scalar renderings are exact; container renderings are
placeholders, no claim constraining them. -/
def pyStr : Value → String
  | .null => "None"
  | .vb true => "True"
  | .vb false => "False"
  | .vs s => s
  | .vi i => toString i
  | .arr _ => "[...]"
  | .obj _ => "\x7b...\x7d"

/-- strEndsWith models Python `key.endswith(pat)` on the character
sequence. -/
def strEndsWith (s pat : String) : Bool := pat.data.isSuffixOf s.data

/-- strContainsChar models Python `c in key` for a one-character needle. -/
def strContainsChar (s : String) (c : Char) : Bool := s.data.contains c

/-- strDropRight models Python `key[:-n]` on the character sequence. -/
def strDropRight (s : String) (n : Nat) : String :=
  ⟨s.data.take (s.data.length - n)⟩

/-- splitOnCharAux splits a character list at every occurrence of the
separator, as Python `str.split` does for a one-character separator. -/
def splitOnCharAux (c : Char) : List Char → List (List Char)
  | [] => [[]]
  | x :: rest =>
    match splitOnCharAux c rest with
    | [] => [[]]
    | g :: gs => if x == c then [] :: g :: gs else (x :: g) :: gs

/-- strSplitOnChar models Python `key.split(sep)` for a one-character
separator. -/
def strSplitOnChar (s : String) (c : Char) : List String :=
  (splitOnCharAux c s.data).map (fun l => ⟨l⟩)

/-- dotPrefixPaths models the non-repeater branches of
`_collect_known_paths` (transformer.py lines 231-243) for one mapping
key: a dotted key contributes the full path and every proper dot-segment
prefix, a plain key contributes just itself, each extended by the
current prefix. -/
def dotPrefixPaths (key pre : String) : List String :=
  if strContainsChar key '.' then
    (if pre = "" then key else pre ++ "." ++ key) ::
      (List.range' 1 ((strSplitOnChar key '.').length - 1)).map
        (fun j =>
          if pre = "" then joinSep "." ((strSplitOnChar key '.').take j)
          else pre ++ "." ++ joinSep "." ((strSplitOnChar key '.').take j))
  else [if pre = "" then key else pre ++ "." ++ key]

mutual

/-- collectKnownPaths models `_collect_known_paths` (transformer.py
lines 215-245); the Python set is modelled as a list used through
membership only. -/
def collectKnownPaths : List (String × MVal) → String → List String
  | [], _ => []
  | (key, value) :: rest, pre =>
    collectKnownForKey key value pre ++ collectKnownPaths rest pre

/-- collectKnownForKey handles one mapping entry: a name[] entry holding
a nested mapping contributes the bare repeater name and its sub-paths;
every other entry goes through `dotPrefixPaths`. -/
def collectKnownForKey (key : String) (value : MVal) (pre : String) : List String :=
  match value with
  | .sub m =>
    if strEndsWith key "[]" then
      (if pre = "" then strDropRight key 2 else pre ++ "." ++ strDropRight key 2) ::
        (collectKnownPaths m "").map
          (fun sp =>
            (if pre = "" then strDropRight key 2 else pre ++ "." ++ strDropRight key 2)
              ++ "." ++ sp)
    else dotPrefixPaths key pre
  | .fkey _ => dotPrefixPaths key pre

end

mutual

/-- collectNestedPaths models `_collect_nested_paths` (transformer.py
lines 248-260): a dict value contributes its own path and, recursively,
a path for every nested entry; any other value contributes just its
path. -/
def collectNestedPaths (key : String) (value : Value) (pre : String) : List String :=
  match value with
  | .obj entries =>
    (if pre = "" then key else pre ++ "." ++ key) ::
      collectNestedEntries entries (if pre = "" then key else pre ++ "." ++ key)
  | _ => [if pre = "" then key else pre ++ "." ++ key]

/-- collectNestedEntries walks the entries of a nested dict. -/
def collectNestedEntries : List (String × Value) → String → List String
  | [], _ => []
  | (k, v) :: rest, full => collectNestedPaths k v full ++ collectNestedEntries rest full

end

/-- validateFieldsGo models the loop of `_validate_section_fields`
(transformer.py lines 193-212): for every entry other than the layout
identifier, each collected path absent from the known-path set adds one
warning; `none` stands for the KeyError of `section["acf_fc_layout"]`
in the warning f-string, which is only evaluated when a warning is
actually appended. -/
def validateFieldsGo (i : Nat) (sect : List (String × Value)) (known : List String) :
    List (String × Value) → Option (List String)
  | [] => some []
  | (key, value) :: rest =>
    if key == "acf_fc_layout" then validateFieldsGo i sect known rest
    else
      if ((collectNestedPaths key value "").filter
          (fun p => !(known.contains p))).isEmpty then
        validateFieldsGo i sect known rest
      else
        match dictGet sect "acf_fc_layout" with
        | none => none
        | some ln =>
          match validateFieldsGo i sect known rest with
          | none => none
          | some ws =>
            some ((((collectNestedPaths key value "").filter
              (fun p => !(known.contains p))).map
              (fun p => "Section " ++ toString i ++ " (" ++ pyStr ln ++
                "): unknown field '" ++ p ++ "'")) ++ ws)

/-- validateSectionFields models `_validate_section_fields`. -/
def validateSectionFields (i : Nat) (sect : List (String × Value))
    (layoutFields : List (String × MVal)) : Option (List String) :=
  validateFieldsGo i sect (collectKnownPaths layoutFields "") sect

/-- validateGo models the section loop of `validate_sections`
(transformer.py lines 157-190), threading the running section index. -/
def validateGo (mapping : FieldMapping) :
    Nat → List (List (String × Value)) → Option (List String)
  | _, [] => some []
  | i, sect :: rest =>
    if !truthy ((dictGet sect "acf_fc_layout").getD .null) then
      match validateGo mapping (i + 1) rest with
      | none => none
      | some ws => some (("Section " ++ toString i ++ ": missing acf_fc_layout") :: ws)
    else if !hasLayout mapping ((dictGet sect "acf_fc_layout").getD .null) then
      match validateGo mapping (i + 1) rest with
      | none => none
      | some ws => some (("Section " ++ toString i ++ ": unknown layout '" ++
          pyStr ((dictGet sect "acf_fc_layout").getD .null) ++ "'") :: ws)
    else
      match validateSectionFields i sect
          (getLayoutFieldsV mapping ((dictGet sect "acf_fc_layout").getD .null)) with
      | none => none
      | some ws =>
        match validateGo mapping (i + 1) rest with
        | none => none
        | some ws2 => some (ws ++ ws2)

/-- validateSections models `validate_sections`. -/
def validateSections (sections : List (List (String × Value)))
    (mapping : FieldMapping) : Option (List String) :=
  validateGo mapping 0 sections

/-- sectionUnknownPathWarnings states, following the spec's words, the
warnings one accepted section should produce: one warning per collected
user path absent from the known-path set, in order. -/
def sectionUnknownPathWarnings (i : Nat) (layoutName : Value)
    (sect : List (String × Value)) (layoutFields : List (String × MVal)) :
    List String :=
  ((sect.filter (fun p => p.1 != "acf_fc_layout")).map
    (fun p => ((collectNestedPaths p.1 p.2 "").filter
      (fun q => !((collectKnownPaths layoutFields "").contains q))).map
      (fun q => "Section " ++ toString i ++ " (" ++ pyStr layoutName ++
        "): unknown field '" ++ q ++ "'"))).flatten

/-- validateSpec states, following the spec's words, the full warning
list `validate_sections` should return: per section, a missing-layout
warning, an unknown-layout warning, or the per-path warnings of
`sectionUnknownPathWarnings`. -/
def validateSpec (mapping : FieldMapping) :
    Nat → List (List (String × Value)) → List String
  | _, [] => []
  | i, sect :: rest =>
    (if truthy ((dictGet sect "acf_fc_layout").getD .null) = false then
      ["Section " ++ toString i ++ ": missing acf_fc_layout"]
     else if hasLayout mapping ((dictGet sect "acf_fc_layout").getD .null) = false then
      ["Section " ++ toString i ++ ": unknown layout '" ++
        pyStr ((dictGet sect "acf_fc_layout").getD .null) ++ "'"]
     else sectionUnknownPathWarnings i ((dictGet sect "acf_fc_layout").getD .null)
       sect (getLayoutFieldsV mapping ((dictGet sect "acf_fc_layout").getD .null))) ++
      validateSpec mapping (i + 1) rest

/-- validateFieldsGo_eq: with the layout identifier retrievable, the
per-section loop never fails and returns one warning per collected user
path absent from the known set, in order. -/
theorem validateFieldsGo_eq {sect : List (String × Value)} {ln : Value}
    (hln : dictGet sect "acf_fc_layout" = some ln)
    (i : Nat) (known : List String) :
    ∀ entries, validateFieldsGo i sect known entries =
      some (((entries.filter (fun p => p.1 != "acf_fc_layout")).map
        (fun p => ((collectNestedPaths p.1 p.2 "").filter
          (fun q => !(known.contains q))).map
          (fun q => "Section " ++ toString i ++ " (" ++ pyStr ln ++
            "): unknown field '" ++ q ++ "'"))).flatten) := by
  intro entries
  induction entries with
  | nil => rfl
  | cons p rest ih =>
    obtain ⟨key, value⟩ := p
    rw [validateFieldsGo]
    by_cases hk : (key == "acf_fc_layout") = true
    · have hk2 : key = "acf_fc_layout" := by simpa using hk
      rw [if_pos hk, ih]
      simp [List.filter_cons, hk2]
    · have hk2 : ¬(key = "acf_fc_layout") := by simpa using hk
      rw [if_neg hk]
      by_cases hbad : ((collectNestedPaths key value "").filter
          (fun q => !(known.contains q))).isEmpty = true
      · rw [if_pos hbad, ih]
        have hnil : (collectNestedPaths key value "").filter
            (fun q => !(known.contains q)) = [] := by
          simpa [List.isEmpty_iff] using hbad
        simp [List.filter_cons, hk2, hnil]
        intro a ha
        have h2 := List.filter_eq_nil_iff.mp hnil a ha
        simpa using h2
      · rw [if_neg hbad, hln, ih]
        simp [List.filter_cons, hk2]

/-- validateGo_eq: the validator loop never fails and returns exactly
the warnings described by `validateSpec`. -/
theorem validateGo_eq (mapping : FieldMapping) :
    ∀ (sections : List (List (String × Value))) (i : Nat),
      validateGo mapping i sections = some (validateSpec mapping i sections) := by
  intro sections
  induction sections with
  | nil => intro i; rfl
  | cons sect rest ih =>
    intro i
    rw [validateGo, validateSpec]
    by_cases ht : truthy ((dictGet sect "acf_fc_layout").getD .null) = true
    · by_cases hh : hasLayout mapping ((dictGet sect "acf_fc_layout").getD .null) = true
      · have hln : ∃ ln, dictGet sect "acf_fc_layout" = some ln := by
          cases hget : dictGet sect "acf_fc_layout" with
          | none => rw [hget] at ht; simp [truthy] at ht
          | some ln => exact ⟨ln, rfl⟩
        obtain ⟨ln, hln⟩ := hln
        rw [if_neg (by simp [ht]), if_neg (by simp [hh])]
        rw [validateSectionFields, validateFieldsGo_eq hln]
        rw [ih]
        rw [if_neg (by simp [ht]), if_neg (by simp [hh])]
        rw [hln]
        rfl
      · rw [if_neg (by simp [ht]), if_pos (by simp [Bool.eq_false_iff.mpr hh])]
        rw [ih]
        rw [if_neg (by simp [ht]), if_pos (Bool.eq_false_iff.mpr hh)]
        rfl
    · rw [if_pos (by simp [Bool.eq_false_iff.mpr ht])]
      rw [ih]
      rw [if_pos (Bool.eq_false_iff.mpr ht)]
      rfl

/-- Known-only sections produce no warnings: when every collected user
path of the section is contained in the known-path set its warning list
is empty. -/
theorem sectionUnknownPathWarnings_eq_nil
    (i : Nat) (ln : Value) (sect : List (String × Value))
    (layoutFields : List (String × MVal))
    (hknown : ∀ p ∈ sect, p.1 ≠ "acf_fc_layout" → ∀ q ∈ collectNestedPaths p.1 p.2 "",
      (collectKnownPaths layoutFields "").contains q = true) :
    sectionUnknownPathWarnings i ln sect layoutFields = [] := by
  rw [sectionUnknownPathWarnings]
  rw [List.flatten_eq_nil_iff]
  intro l hl
  rw [List.mem_map] at hl
  obtain ⟨p, hp, rfl⟩ := hl
  obtain ⟨hpmem, hpcond⟩ := List.mem_filter.mp hp
  have hfil : (collectNestedPaths p.1 p.2 "").filter
      (fun q => !((collectKnownPaths layoutFields "").contains q)) = [] := by
    rw [List.filter_eq_nil_iff]
    intro a ha
    have hc := hknown p hpmem (by simpa using hpcond) a ha
    simp only [Bool.not_eq_true', Bool.not_eq_false]
    simpa using hc
  rw [hfil]
  rfl

/-- C8: `validate_sections` never raises: it returns, for every section,
the missing-layout warning, the unknown-layout warning, or exactly one
warning per user-supplied dot-path (top-level keys, intermediate
nested-map prefixes and list-valued paths, as collected by
`collectNestedPaths`) absent from the known-path set exploded from the
layout's PathMapping by `collectKnownPaths`; and a section all of whose
collected paths are known yields zero warnings. -/
theorem c8_validate_never_raises_exact_warnings
    (sections : List (List (String × Value))) (mapping : FieldMapping) :
    validateSections sections mapping = some (validateSpec mapping 0 sections) ∧
    (∀ (i : Nat) (ln : Value) (sect : List (String × Value))
        (layoutFields : List (String × MVal)),
      (∀ p ∈ sect, p.1 ≠ "acf_fc_layout" → ∀ q ∈ collectNestedPaths p.1 p.2 "",
        (collectKnownPaths layoutFields "").contains q = true) →
      sectionUnknownPathWarnings i ln sect layoutFields = []) :=
  ⟨validateGo_eq mapping sections 0, sectionUnknownPathWarnings_eq_nil⟩

/-- c8Mapping is a small concrete mapping with a dotted path and a
repeater entry. -/
def c8Mapping : FieldMapping :=
  ⟨"fck", [("L", ("layout_l",
    [("heading.text", .fkey "fh"), ("items[]", .sub [("t", .fkey "ft")])]))]⟩

/-- c8Sect is a section using only known paths of c8Mapping. -/
def c8Sect : List (String × Value) :=
  [("acf_fc_layout", .vs "L"), ("heading", .obj [("text", .vs "x")]),
   ("items", .arr [])]

/-- Witness for C8 at a concrete mapping and known-paths-only section. -/
theorem c8_witness :
    validateSections [c8Sect] c8Mapping = some (validateSpec c8Mapping 0 [c8Sect]) ∧
      sectionUnknownPathWarnings 0 (.vs "L") c8Sect
        [("heading.text", .fkey "fh"), ("items[]", .sub [("t", .fkey "ft")])] = [] :=
  ⟨(c8_validate_never_raises_exact_warnings [c8Sect] c8Mapping).1,
    (c8_validate_never_raises_exact_warnings [c8Sect] c8Mapping).2 0 (.vs "L") c8Sect
      [("heading.text", .fkey "fh"), ("items[]", .sub [("t", .fkey "ft")])]
      (by decide)⟩

/-- UI_ONLY_TYPES reproduces field_path_builder.py line 13. -/
def UI_ONLY_TYPES : List String := ["accordion", "tab", "message"]

/-- sizeOf_subFieldsD_lt lets the path builder recurse into a field's
sub_fields list. -/
theorem sizeOf_subFieldsD_lt (f : Field) (rest : List Field) :
    sizeOf f.subFieldsD < sizeOf (f :: rest) := by
  cases f with
  | mk k t n c s =>
    cases s with
    | none => simp [Field.subFieldsD, Field.subFields]; omega
    | some l => simp [Field.subFieldsD, Field.subFields]; omega

/-- buildFieldPaths models `build_field_paths` (field_path_builder.py
lines 16-75) with the accumulating result dict made explicit (a fresh
recursive call starts from the empty dict) and an explicit fuel bounding
the depth of clone expansion, which the source does not bound: UI-only
and nameless fields are skipped, clones are resolved and compiled under
the same prefix, groups extend the prefix, repeaters compile their
sub-fields under a fresh prefix into a nested mapping, and a leaf field
records path -> field["key"], raising a KeyError when "key" is absent. -/
def buildFieldPaths (index : ACFIndex) :
    Nat → List Field → String → List String → List (String × MVal) →
    Except Err (List (String × MVal))
  | _, [], _, _, acc => .ok acc
  | fuel, f :: rest, pre, visited, acc =>
    if f.typeD ∈ UI_ONLY_TYPES ∨ f.nameD = "" then
      buildFieldPaths index fuel rest pre visited acc
    else if f.typeD = "clone" then
      match fuel with
      | 0 => .error .outOfFuel
      | m + 1 =>
        match resolveClone index (m + 1) f visited with
        | .error e => .error e
        | .ok expanded =>
          match buildFieldPaths index m expanded pre visited [] with
          | .error e => .error e
          | .ok sub => buildFieldPaths index (m + 1) rest pre visited (dictUpdate acc sub)
    else if f.typeD = "group" then
      match buildFieldPaths index fuel f.subFieldsD
          (if pre = "" then f.nameD else pre ++ "." ++ f.nameD) visited [] with
      | .error e => .error e
      | .ok sub => buildFieldPaths index fuel rest pre visited (dictUpdate acc sub)
    else if f.typeD = "repeater" then
      match buildFieldPaths index fuel f.subFieldsD "" visited [] with
      | .error e => .error e
      | .ok sub =>
        buildFieldPaths index fuel rest pre visited
          (dictSet acc ((if pre = "" then f.nameD else pre ++ "." ++ f.nameD) ++ "[]")
            (.sub sub))
    else
      match f.key with
      | none => .error (.keyError "key")
      | some k =>
        buildFieldPaths index fuel rest pre visited
          (dictSet acc (if pre = "" then f.nameD else pre ++ "." ++ f.nameD) (.fkey k))
termination_by fuel fields _ _ _ => (fuel, sizeOf fields)
decreasing_by
  all_goals simp_wf
  all_goals
    first
    | (apply Prod.Lex.left
       omega)
    | (apply Prod.Lex.right
       first
       | omega
       | (have h := sizeOf_subFieldsD_lt f rest
          simpa using h))

/-- buildFieldPaths_named_leaf_no_key: a named leaf field without a
"key" entry raises a KeyError at once. -/
theorem buildFieldPaths_named_leaf_no_key
    (index : ACFIndex) (fuel : Nat) (f : Field) (rest : List Field)
    (pre : String) (visited : List String) (acc : List (String × MVal))
    (h1 : f.typeD ∉ UI_ONLY_TYPES) (h2 : f.typeD ≠ "clone")
    (h3 : f.typeD ≠ "group") (h4 : f.typeD ≠ "repeater")
    (h5 : f.nameD ≠ "") (hkey : f.key = none) :
    buildFieldPaths index fuel (f :: rest) pre visited acc =
      .error (.keyError "key") := by
  rw [buildFieldPaths.eq_def]
  dsimp only
  rw [if_neg (not_or.mpr ⟨h1, h5⟩), if_neg h2, if_neg h3, if_neg h4, hkey]

/-- buildFieldPaths_single_leaf: a named leaf field with a key is
recorded under its path. -/
theorem buildFieldPaths_single_leaf
    (index : ACFIndex) (fuel : Nat) (f : Field) (kk : String)
    (pre : String) (visited : List String) (acc : List (String × MVal))
    (h1 : f.typeD ∉ UI_ONLY_TYPES) (h2 : f.typeD ≠ "clone")
    (h3 : f.typeD ≠ "group") (h4 : f.typeD ≠ "repeater")
    (h5 : f.nameD ≠ "") (hkey : f.key = some kk) :
    buildFieldPaths index fuel [f] pre visited acc =
      .ok (dictSet acc (if pre = "" then f.nameD else pre ++ "." ++ f.nameD)
        (.fkey kk)) := by
  rw [buildFieldPaths.eq_def]
  dsimp only
  rw [if_neg (not_or.mpr ⟨h1, h5⟩), if_neg h2, if_neg h3, if_neg h4, hkey]
  dsimp only
  rw [buildFieldPaths.eq_def]

/-- buildFieldPaths_skip_unnamed: a field with "type" and "name" both
absent is skipped without raising. -/
theorem buildFieldPaths_skip_unnamed
    (index : ACFIndex) (fuel : Nat) (k : Option String)
    (c : Option (List String)) (s : Option (List Field)) (pre : String)
    (visited : List String) (acc : List (String × MVal)) :
    buildFieldPaths index fuel [Field.mk k none none c s] pre visited acc =
      .ok acc := by
  rw [buildFieldPaths.eq_def]
  dsimp only
  rw [if_pos (Or.inr (show (Field.mk k none none c s).nameD = "" from rfl))]
  rw [buildFieldPaths.eq_def]

/-- buildFieldPaths_group_no_subs: a named group without a "sub_fields"
entry contributes nothing and raises nothing. -/
theorem buildFieldPaths_group_no_subs
    (index : ACFIndex) (fuel : Nat) (k : Option String) (nm : String)
    (c : Option (List String)) (pre : String) (visited : List String)
    (acc : List (String × MVal)) (hnm : nm ≠ "") :
    buildFieldPaths index fuel [Field.mk k (some "group") (some nm) c none]
        pre visited acc = .ok acc := by
  rw [buildFieldPaths.eq_def]
  dsimp only
  rw [if_neg (not_or.mpr ⟨by simp [Field.typeD, Field.ftype, UI_ONLY_TYPES],
    by simpa [Field.nameD, Field.fname] using hnm⟩)]
  rw [if_neg (by simp [Field.typeD, Field.ftype])]
  rw [if_pos (by simp [Field.typeD, Field.ftype])]
  rw [show (Field.mk k (some "group") (some nm) c none).subFieldsD = [] from rfl]
  rw [buildFieldPaths.eq_def]
  dsimp only
  rw [buildFieldPaths.eq_def]
  exact rfl

/-- C10: `build_field_paths` is total only under the precondition that
every named leaf field carries a "key" entry: a named field whose type
is neither clone, group, repeater nor UI-only but whose "key" entry is
absent raises a KeyError at once, whereas the other optional attributes
are defaulted through .get and raise nothing: a field with "type" and
"name" both absent is skipped, a named leaf with a key but no "type" is
recorded normally, and a named group with no "sub_fields" contributes
nothing. -/
theorem c10_named_leaf_requires_key :
    (∀ (index : ACFIndex) (fuel : Nat) (f : Field) (rest : List Field)
        (pre : String) (visited : List String) (acc : List (String × MVal)),
      f.typeD ∉ UI_ONLY_TYPES → f.typeD ≠ "clone" → f.typeD ≠ "group" →
      f.typeD ≠ "repeater" → f.nameD ≠ "" → f.key = none →
      buildFieldPaths index fuel (f :: rest) pre visited acc =
        .error (.keyError "key")) ∧
    (∀ (index : ACFIndex) (fuel : Nat) (k : Option String)
        (c : Option (List String)) (s : Option (List Field)) (pre : String)
        (visited : List String) (acc : List (String × MVal)),
      buildFieldPaths index fuel [Field.mk k none none c s] pre visited acc =
        .ok acc) ∧
    (∀ (index : ACFIndex) (fuel : Nat) (kk nm : String)
        (c : Option (List String)) (s : Option (List Field)) (pre : String)
        (visited : List String) (acc : List (String × MVal)), nm ≠ "" →
      buildFieldPaths index fuel [Field.mk (some kk) none (some nm) c s]
          pre visited acc =
        .ok (dictSet acc (if pre = "" then nm else pre ++ "." ++ nm) (.fkey kk))) ∧
    (∀ (index : ACFIndex) (fuel : Nat) (k : Option String) (nm : String)
        (c : Option (List String)) (pre : String) (visited : List String)
        (acc : List (String × MVal)), nm ≠ "" →
      buildFieldPaths index fuel [Field.mk k (some "group") (some nm) c none]
          pre visited acc = .ok acc) := by
  refine ⟨buildFieldPaths_named_leaf_no_key, buildFieldPaths_skip_unnamed,
    ?_, buildFieldPaths_group_no_subs⟩
  intro index fuel kk nm c s pre visited acc hnm
  have h := buildFieldPaths_single_leaf index fuel
    (Field.mk (some kk) none (some nm) c s) kk pre visited acc
    (by simp [Field.typeD, Field.ftype, UI_ONLY_TYPES])
    (by simp [Field.typeD, Field.ftype])
    (by simp [Field.typeD, Field.ftype])
    (by simp [Field.typeD, Field.ftype])
    (by simpa [Field.nameD, Field.fname] using hnm) rfl
  simpa using h

/-- Witness for C10 at concrete fields of each shape. -/
theorem c10_witness :
    buildFieldPaths ⟨[], []⟩ 3
        [Field.mk none (some "text") (some "n") none none] "" [] [] =
      .error (.keyError "key") ∧
    buildFieldPaths ⟨[], []⟩ 3 [Field.mk (some "K") none none none none] "" [] [] =
      .ok [] ∧
    buildFieldPaths ⟨[], []⟩ 3
        [Field.mk (some "K") none (some "n") none none] "" [] [] =
      .ok [("n", .fkey "K")] ∧
    buildFieldPaths ⟨[], []⟩ 3
        [Field.mk (some "K") (some "group") (some "g") none none] "" [] [] =
      .ok [] := by
  refine ⟨c10_named_leaf_requires_key.1 ⟨[], []⟩ 3 _ [] "" [] []
      (by decide) (by decide) (by decide) (by decide) (by decide) rfl,
    c10_named_leaf_requires_key.2.1 ⟨[], []⟩ 3 (some "K") none none "" [] [],
    ?_, c10_named_leaf_requires_key.2.2.2 ⟨[], []⟩ 3 (some "K") "g" none "" [] []
      (by decide)⟩
  have h := c10_named_leaf_requires_key.2.2.1 ⟨[], []⟩ 3 "K" "n" none none "" [] []
    (by decide)
  simpa using h

/-- Layout models one layout dict of the flexible-content field's
"layouts" map: its "name" entry and its "sub_fields" list, each possibly
absent. -/
structure Layout where
  lname : Option String
  subFields : Option (List Field)

/-- resolveLayoutSubFields models the sub-field loop of
`_process_layout` (parser.py lines 120-126): every clone-typed sub-field
is resolved with a fresh visited set, the others are kept as-is. -/
def resolveLayoutSubFields (index : ACFIndex) (fuel : Nat) :
    List Field → Except Err (List Field)
  | [] => .ok []
  | sf :: rest =>
    match (if sf.typeD = "clone" then resolveClone index fuel sf [] else .ok [sf]) with
    | .error e => .error e
    | .ok head =>
      match resolveLayoutSubFields index fuel rest with
      | .error e => .error e
      | .ok tail => .ok (head ++ tail)

/-- processLayout models `_process_layout` (parser.py lines 110-128):
an empty or absent sub_fields list yields the empty mapping with a
warning; otherwise the sub-fields are resolved and compiled into field
paths. -/
def processLayout (index : ACFIndex) (fuel : Nat) (layout : Layout) :
    Except Err (List (String × MVal)) :=
  if (layout.subFields.getD []).isEmpty then .ok []
  else
    match resolveLayoutSubFields index fuel (layout.subFields.getD []) with
    | .error e => .error e
    | .ok allResolved => buildFieldPaths index fuel allResolved "" [] []

/-- extractLayoutsLoop models the layout loop of
`extract_page_sections_layouts` (parser.py lines 70-86), run after the
Page Sections group and its flexible-content field have been located
(whose absence is the separately specified fatal path): `layout["name"]`
is read before the try block, so a layout without a "name" entry raises
a KeyError that aborts the whole loop, while an exception inside
`_process_layout` is caught and only drops that layout; successful
layouts are assigned into the accumulating result dict under their
name. -/
def extractLayoutsLoop (index : ACFIndex) (fuel : Nat) :
    List (String × Layout) → List (String × (String × List (String × MVal))) →
    Except Err (List (String × (String × List (String × MVal))))
  | [], acc => .ok acc
  | (layoutKey, layout) :: rest, acc =>
    match layout.lname with
    | none => .error (.keyError "name")
    | some layoutName =>
      match processLayout index fuel layout with
      | .error _ => extractLayoutsLoop index fuel rest acc
      | .ok fieldPaths =>
        extractLayoutsLoop index fuel rest (dictSet acc layoutName (layoutKey, fieldPaths))

/-- Assigning any key preserves the presence of every retrievable key. -/
theorem dictGet_dictSet_isSome {β : Type} {l : List (String × β)} {k : String}
    (h : (dictGet l k).isSome = true) (k' : String) (v : β) :
    (dictGet (dictSet l k' v) k).isSome = true := by
  by_cases hk : k' = k
  · subst hk
    rw [dictGet_dictSet_same]
    rfl
  · rw [dictGet_dictSet_other hk]
    exact h

/-- c7Leaf is a plain leaf sub-field with a key. -/
def c7Leaf : Field := .mk (some "KG") (some "text") (some "g") none none

/-- c7BadLayout is a layout dict without a "name" entry. -/
def c7BadLayout : Layout := ⟨none, some [c7Leaf]⟩

/-- c7GoodLayout is a well-formed layout that processes successfully. -/
def c7GoodLayout : Layout := ⟨some "Good", some [c7Leaf]⟩

/-- c7Idx is an empty index; neither layout needs clone resolution. -/
def c7Idx : ACFIndex := ⟨[], []⟩

/-- Counterexample to C7: a layout missing its "name" entry raises a
KeyError that is read outside the try/except of
`extract_page_sections_layouts`, aborting the whole loop, so the
compiled result does not contain the remaining layout even though that
layout processes successfully. -/
theorem c7_counterexample :
    extractLayoutsLoop c7Idx 3
        [("layout_bad", c7BadLayout), ("layout_good", c7GoodLayout)] [] =
      .error (.keyError "name") ∧
    processLayout c7Idx 3 c7GoodLayout = .ok [("g", .fkey "KG")] := by
  constructor
  · rfl
  · rw [processLayout]
    rw [if_neg (by decide)]
    rw [show resolveLayoutSubFields c7Idx 3 ((c7GoodLayout.subFields).getD []) =
      .ok [c7Leaf] from rfl]
    dsimp only
    have h := buildFieldPaths_single_leaf c7Idx 3 c7Leaf "KG" "" [] []
      (by decide) (by decide) (by decide) (by decide) (by decide) rfl
    rw [h]
    exact rfl

/-- C7 amended: provided every layout dict carries a "name" entry, any
exception raised while processing one layout inside `_process_layout`
is caught and only that layout is omitted; the loop returns a result
containing an entry for every layout that processed successfully (and
keeps every previously accumulated entry).  A layout without a "name"
entry instead raises a KeyError read outside the try/except and aborts
the whole extraction. -/
theorem c7_amended_layout_failures_isolated
    (index : ACFIndex) (fuel : Nat) :
    ∀ (layouts : List (String × Layout))
      (acc : List (String × (String × List (String × MVal)))),
      (∀ p ∈ layouts, (p.2).lname.isSome = true) →
      ∃ res, extractLayoutsLoop index fuel layouts acc = .ok res ∧
        (∀ k, (dictGet acc k).isSome = true → (dictGet res k).isSome = true) ∧
        (∀ p ∈ layouts, ∀ nm fps, p.2.lname = some nm →
          processLayout index fuel p.2 = .ok fps →
          (dictGet res nm).isSome = true) := by
  intro layouts
  induction layouts with
  | nil =>
    intro acc _
    exact ⟨acc, rfl, fun k h => h, fun p hp => absurd hp (List.not_mem_nil p)⟩
  | cons q rest ih =>
    intro acc hnames
    obtain ⟨layoutKey, layout⟩ := q
    cases hname : layout.lname with
    | none =>
      have := hnames (layoutKey, layout) (List.mem_cons_self _ _)
      rw [hname] at this
      cases this
    | some layoutName =>
      rw [extractLayoutsLoop, hname]
      cases hproc : processLayout index fuel layout with
      | error e =>
        obtain ⟨res, hres, hacc, hmem⟩ :=
          ih acc (fun p hp => hnames p (List.mem_cons_of_mem _ hp))
        refine ⟨res, hres, hacc, ?_⟩
        intro p hp nm fps hpname hpok
        rcases List.mem_cons.mp hp with rfl | hp'
        · rw [hproc] at hpok
          cases hpok
        · exact hmem p hp' nm fps hpname hpok
      | ok fieldPaths =>
        obtain ⟨res, hres, hacc, hmem⟩ :=
          ih (dictSet acc layoutName (layoutKey, fieldPaths))
            (fun p hp => hnames p (List.mem_cons_of_mem _ hp))
        refine ⟨res, hres, ?_, ?_⟩
        · intro k hk
          exact hacc k (dictGet_dictSet_isSome hk _ _)
        · intro p hp nm fps hpname hpok
          rcases List.mem_cons.mp hp with rfl | hp'
          · have : nm = layoutName := by
              rw [hname] at hpname
              cases hpname
              rfl
            subst this
            apply hacc
            rw [dictGet_dictSet_same]
            rfl
          · exact hmem p hp' nm fps hpname hpok

/-- Witness for the amended C7 at a single successfully processed
layout. -/
theorem c7_amended_witness :
    ∃ res, extractLayoutsLoop c7Idx 3 [("layout_good", c7GoodLayout)] [] = .ok res ∧
      (∀ k, (dictGet ([] : List (String × (String × List (String × MVal)))) k).isSome
          = true → (dictGet res k).isSome = true) ∧
      (∀ p ∈ [("layout_good", c7GoodLayout)], ∀ nm fps, p.2.lname = some nm →
        processLayout c7Idx 3 p.2 = .ok fps → (dictGet res nm).isSome = true) :=
  c7_amended_layout_failures_isolated c7Idx 3 [("layout_good", c7GoodLayout)] []
    (by decide)

end ACF
